import Mathlib

/-!
Shallow embedding of the condition composition/evaluation engine of the
repository (src/pypipe/conditions/base.py) and of the condition-string
dispatcher (src/powerbase/parse/_condition/condition_item.py), together
with theorems settling the specification claims about them.

Conventions of the embedding:
* Instants and durations are integers counting microseconds, so that
  Python's `datetime.timedelta.resolution` (one microsecond) is the
  integer `1`.
* A Python call that raises is modelled with `Except Err`; `Err` lists
  the exception classes the embedded code can raise.
* A base (leaf) condition is abstracted by the outcome of its `__bool__`
  method: `some b` when it returns the boolean `b`, `none` when it
  raises a condition-evaluation error.
-/

/-- Exception classes raised by the embedded code paths. -/
inductive Err where
  /-- Python TypeError, e.g. from calling `hasattr` with a single argument. -/
  | typeError
  /-- Python ValueError, e.g. from `min()`/`max()` over an empty sequence,
  and the error raised by `parse_condition_item` when no rule matches
  (the spec names it ConditionParseError). -/
  | valueError
  /-- A condition that cannot determine its truth value
  (the spec's ConditionEvaluationError). -/
  | evalError
  /-- Python AttributeError from accessing a missing attribute. -/
  | attributeError
deriving DecidableEq, Repr

/-- Condition trees of `src/pypipe/conditions/base.py`.
`leaf result` abstracts any `BaseCondition` subtype without subconditions
by the outcome of its `__bool__` (`none` models a raise);
`anyC`, `allC` and `notC` are the stored states of the composite classes
`Any`, `All` and `Not`: `Any`/`All` store `self.subconditions`, `Not`
stores `self.condition`. -/
inductive Cond where
  | leaf (result : Option Bool)
  | anyC (subconditions : List Cond)
  | allC (subconditions : List Cond)
  | notC (condition : Cond)

/-- The `AlwaysTrue` condition: its `__bool__` returns `True`. -/
def alwaysTrueC : Cond := .leaf (some true)

/-- The `AlwaysFalse` condition: its `__bool__` returns `False`. -/
def alwaysFalseC : Cond := .leaf (some false)

/-- A base condition whose `__bool__` raises a condition-evaluation error. -/
def raisesC : Cond := .leaf none

mutual

/-- The `__bool__` methods: a leaf yields its stored outcome,
`Any.__bool__` is `any(self.subconditions)`, `All.__bool__` is
`all(self.subconditions)`, and `Not.__bool__` is `not(self.condition)`.
Raised errors propagate. -/
def evaluate : Cond → Except Err Bool
  | .leaf (some b) => .ok b
  | .leaf none => .error .evalError
  | .anyC subs => evalAny subs
  | .allC subs => evalAll subs
  | .notC c => do
      let b ← evaluate c
      .ok (!b)

/-- Python's builtin `any` over an iterable of conditions: each element is
coerced with `bool(...)` in sequence order and iteration stops at the
first true element; `any` of an empty iterable is `False`. -/
def evalAny : List Cond → Except Err Bool
  | [] => .ok false
  | c :: rest => do
      let b ← evaluate c
      if b then .ok true else evalAny rest

/-- Python's builtin `all` over an iterable of conditions: each element is
coerced with `bool(...)` in sequence order and iteration stops at the
first false element; `all` of an empty iterable is `True`. -/
def evalAll : List Cond → Except Err Bool
  | [] => .ok true
  | c :: rest => do
      let b ← evaluate c
      if b then evalAll rest else .ok false

end

/-- The per-argument step of `Any.__init__`:
`cond.subconditions if isinstance(cond, type(self)) else [cond]`. -/
def anyFlatten : Cond → List Cond
  | .anyC subs => subs
  | c => [c]

/-- The per-argument step of `All.__init__`:
`cond.subconditions if isinstance(cond, type(self)) else [cond]`. -/
def allFlatten : Cond → List Cond
  | .allC subs => subs
  | c => [c]

/-- `Any.__init__(*conditions)`: starts from an empty list and appends, for
each argument in order, either its subconditions (when the argument is
itself an `Any`) or the argument itself. -/
def anyInit (conditions : List Cond) : Cond :=
  .anyC (conditions.flatMap anyFlatten)

/-- `All.__init__(*conditions)`: starts from an empty list and appends, for
each argument in order, either its subconditions (when the argument is
itself an `All`) or the argument itself. -/
def allInit (conditions : List Cond) : Cond :=
  .allC (conditions.flatMap allFlatten)

/-- `Not.__init__(condition)`: stores the condition unchanged. -/
def notInit (condition : Cond) : Cond :=
  .notC condition

/-- The `~` operator: `BaseCondition.__invert__` returns `Not(self)`, and
`Not.__invert__` overrides it to return the stored condition. -/
def invert : Cond → Cond
  | .notC c => c
  | c => .notC c

/-- The `subconditions` attribute: the stored list on `Any`/`All`, the
one-element tuple `(self.condition,)` on `Not`, and absent (`none`) on
base conditions. -/
def subconditions? : Cond → Option (List Cond)
  | .leaf _ => none
  | .anyC subs => some subs
  | .allC subs => some subs
  | .notC c => some [c]

/-- Whether `hasattr(cond, "estimate_timedelta")` holds: the method is
defined on the classes `Any` and `All`; `Not.__getattr__` forwards the
lookup to the wrapped condition; base conditions do not define it (in
particular `TimeCondition` names its method `estimate_next`). -/
def hasEstimateTimedelta : Cond → Bool
  | .anyC _ => true
  | .allC _ => true
  | .notC c => hasEstimateTimedelta c
  | .leaf _ => false

mutual

/-- The `estimate_timedelta` attribute called with instant `dt`.
`Any.estimate_timedelta` evaluates
`min(cond.estimate_timedelta(dt) if hasattr("estimate_timedelta") else 0
for cond in self.subconditions)`: with no subconditions `min` raises
ValueError; otherwise producing the first generator item evaluates
`hasattr("estimate_timedelta")`, a one-argument call to the two-argument
builtin, which raises TypeError.
`All.estimate_timedelta` evaluates
`max(cond.estimate_timedelta(dt) if hasattr(cond, "estimate_timedelta")
else datetime.timedelta.resolution for cond in self.subconditions)`,
modelled by `allMax`.
`Not` has no such method of its own, so the call reaches the wrapped
condition through `__getattr__`; on a base condition the attribute lookup
raises AttributeError. -/
def estimateTD : Cond → Int → Except Err Int
  | .leaf _, _ => .error .attributeError
  | .anyC [], _ => .error .valueError
  | .anyC (_ :: _), _ => .error .typeError
  | .allC subs, dt => allMax subs dt
  | .notC c, dt => estimateTD c dt

/-- Python's `max` consuming the generator of `All.estimate_timedelta` one
item at a time: over an empty sequence it raises ValueError; each item is
the child's `estimate_timedelta(dt)` when the child has that attribute and
otherwise `datetime.timedelta.resolution` (the integer 1 here); an error
raised while producing an item propagates. -/
def allMax : List Cond → Int → Except Err Int
  | [], _ => .error .valueError
  | [c], dt => if hasEstimateTimedelta c then estimateTD c dt else .ok 1
  | c :: rest, dt => do
      let v ← (if hasEstimateTimedelta c then estimateTD c dt else .ok 1)
      let w ← allMax rest dt
      .ok (max v w)

end

/-- Modelled from the spec: a time interval with a left edge (the module
`pypipe.time` providing interval objects is not under src/); `left` is the
spec's leftEdge. -/
structure TimeInterval where
  left : Int
  right : Int

/-- Modelled from the spec: a time period supporting `rollforward`, which
returns the next occurrence of the window at or after the given instant
(the module `pypipe.time` is not under src/). -/
structure Period where
  rollforward : Int → TimeInterval

/-- `TimeCondition.estimate_next(dt)`: rolls the stored period forward
from `dt` and returns `dt - interval.left`. -/
def estimate_next (p : Period) (dt : Int) : Int :=
  dt - (p.rollforward dt).left

/-- The estimate the spec states for `TimeCondition`, for comparison with
`estimate_next`: `rollForward(now).leftEdge - now`. -/
def estimateNextSpec (p : Period) (dt : Int) : Int :=
  (p.rollforward dt).left - dt

/-- A concrete period whose next occurrence always starts three hours
(10800000000 microseconds) after the queried instant. -/
def aheadThreeHours : Period :=
  ⟨fun dt => ⟨dt + 10800000000, dt + 14400000000⟩⟩

/-- Modelled from the spec: one registered (pattern, constructor) rule of
the condition-parsing registry (class `Parser` of `..utils` is not under
src/): applied to the input text it returns a condition on a successful
match; the `none` outcome models the ParserError raise on no match. -/
abbrev Rule : Type := String → Option Cond

/-- `parse_condition_item(s)` over the registered rule list: tries each
rule in order, returning the first successful result; a rule's
ParserError is swallowed and the next rule is tried; when no rule matches
it raises a ValueError (the error the spec names ConditionParseError). -/
def parse_condition_item (rules : List Rule) (s : String) : Except Err Cond :=
  match rules with
  | [] => .error .valueError
  | r :: rest =>
      match r s with
      | some c => .ok c
      | none => parse_condition_item rest s


/-- Evaluating `all` over an appended child sequence: the left part runs
first, and a false or raising left part short-circuits the right part. -/
theorem evalAll_append (l1 l2 : List Cond) :
    evalAll (l1 ++ l2) =
      match evalAll l1 with
      | .ok true => evalAll l2
      | .ok false => .ok false
      | .error e => .error e := by
  induction l1 with
  | nil => rfl
  | cons c rest ih =>
      simp only [List.cons_append, evalAll]
      cases hc : evaluate c with
      | error e => rfl
      | ok b =>
          cases b with
          | false => rfl
          | true => exact ih

/-- Evaluating `all` over the list the `All` constructor extracts from one
argument agrees with evaluating the argument itself. -/
theorem evalAll_allFlatten (c : Cond) (y : Bool) (h : evaluate c = .ok y) :
    evalAll (allFlatten c) = .ok y := by
  have hsingle : evalAll [c] = .ok y := by
    simp only [evalAll, h]
    cases y <;> rfl
  cases c with
  | allC subs => exact h
  | leaf r => exact hsingle
  | anyC subs => exact hsingle
  | notC d => exact hsingle

/-- Claim C10: constructing `Any` with zero conditions yields a condition
that evaluates to false, and constructing `All` with zero conditions
yields a condition that evaluates to true. -/
theorem empty_composite_defaults :
    evaluate (anyInit []) = .ok false ∧ evaluate (allInit []) = .ok true :=
  ⟨rfl, rfl⟩

/-- Claim C5: composite evaluation short-circuits in child-sequence order:
an `Any` whose children are `[AlwaysTrue(), c]` evaluates to true without
reaching the raising child `c`, and an `All` whose children are
`[AlwaysFalse(), d]` evaluates to false without reaching the raising
child `d`. -/
theorem composite_short_circuit (c d : Cond)
    (hc : evaluate c = .error .evalError) (hd : evaluate d = .error .evalError) :
    evaluate (.anyC [alwaysTrueC, c]) = .ok true ∧
    evaluate (.allC [alwaysFalseC, d]) = .ok false :=
  ⟨rfl, rfl⟩

/-- Witness for claim C5 at the raising leaf condition. -/
theorem composite_short_circuit_witness :
    evaluate raisesC = .error .evalError ∧
    (evaluate (.anyC [alwaysTrueC, raisesC]) = .ok true ∧
      evaluate (.allC [alwaysFalseC, raisesC]) = .ok false) :=
  ⟨rfl, composite_short_circuit raisesC raisesC rfl rfl⟩

/-- Claim C6: constructing `Any(Any(a, b), c)` yields the same condition,
child sequence included, as `Any(a, b, c)`, and likewise for `All`. -/
theorem composite_flattening (a b c : Cond) :
    anyInit [anyInit [a, b], c] = anyInit [a, b, c] ∧
    allInit [allInit [a, b], c] = allInit [a, b, c] := by
  constructor <;>
    simp [anyInit, allInit, anyFlatten, allFlatten, List.append_assoc]

/-- Counterexample to claim C3: the `Not` constructor itself does not
simplify a double negation, so `Not(Not(AlwaysTrue()))` is a double
wrapper and not structurally equal to `AlwaysTrue()`. -/
theorem not_double_wrap_counterexample :
    notInit (notInit alwaysTrueC) ≠ alwaysTrueC :=
  fun h => Cond.noConfusion h

/-- Claim C3 (amended): negating a `Not` via the invert operator returns
the original wrapped condition, and inverting twice returns the original
condition whenever it is not itself a `Not`; the simplification lives in
the invert operator, not in the `Not` constructor. -/
theorem invert_double_negation (a : Cond) (h : ∀ b, a ≠ Cond.notC b) :
    invert (Cond.notC a) = a ∧ invert (invert a) = a := by
  refine ⟨rfl, ?_⟩
  cases a with
  | leaf r => rfl
  | anyC subs => rfl
  | allC subs => rfl
  | notC b => exact absurd rfl (h b)

/-- Witness for claim C3 (amended) at `AlwaysTrue()`. -/
theorem invert_double_negation_witness :
    invert (Cond.notC alwaysTrueC) = alwaysTrueC ∧
    invert (invert alwaysTrueC) = alwaysTrueC :=
  invert_double_negation alwaysTrueC (fun b h => Cond.noConfusion h)

/-- Counterexample to claim C4: the `Any` and `All` constructors accept
zero arguments, and the resulting instances have an empty child
sequence. -/
theorem empty_construction_counterexample :
    subconditions? (anyInit []) = some [] ∧ subconditions? (allInit []) = some [] :=
  ⟨rfl, rfl⟩

/-- Claim C4 (amended): an `Any` or `All` built from at least one
argument, none of which is a same-type composite with an empty child
sequence, has a non-empty child sequence immediately after construction;
and every `Not` holds exactly one child. -/
theorem composite_children_invariant (argsA argsL : List Cond) (c : Cond)
    (hA : argsA ≠ []) (hAf : ∀ x ∈ argsA, anyFlatten x ≠ [])
    (hL : argsL ≠ []) (hLf : ∀ x ∈ argsL, allFlatten x ≠ []) :
    (∃ l, subconditions? (anyInit argsA) = some l ∧ l ≠ []) ∧
    (∃ l, subconditions? (allInit argsL) = some l ∧ l ≠ []) ∧
    subconditions? (notInit c) = some [c] := by
  refine ⟨⟨argsA.flatMap anyFlatten, rfl, ?_⟩,
    ⟨argsL.flatMap allFlatten, rfl, ?_⟩, rfl⟩
  · cases argsA with
    | nil => exact absurd rfl hA
    | cons x rest =>
        rw [List.flatMap_cons]
        intro h
        exact hAf x (List.mem_cons_self x rest) (List.append_eq_nil.mp h).1
  · cases argsL with
    | nil => exact absurd rfl hL
    | cons x rest =>
        rw [List.flatMap_cons]
        intro h
        exact hLf x (List.mem_cons_self x rest) (List.append_eq_nil.mp h).1

/-- Witness for claim C4 (amended) at one-argument constructions. -/
theorem composite_children_invariant_witness :
    (∃ l, subconditions? (anyInit [alwaysTrueC]) = some l ∧ l ≠ []) ∧
    (∃ l, subconditions? (allInit [alwaysFalseC]) = some l ∧ l ≠ []) ∧
    subconditions? (notInit alwaysTrueC) = some [alwaysTrueC] :=
  composite_children_invariant [alwaysTrueC] [alwaysFalseC] alwaysTrueC
    (by simp) (by simp [anyFlatten, alwaysTrueC]) (by simp)
    (by simp [allFlatten, alwaysFalseC])

/-- Claim C1 (code behaviour): `Any.estimate_timedelta` never returns a
minimum: with at least one child the single-argument `hasattr` call
raises TypeError, and with no children `min()` raises ValueError. -/
theorem any_estimate_timedelta_raises :
    estimateTD (anyInit [alwaysTrueC]) 0 = .error .typeError ∧
    estimateTD (anyInit []) 0 = .error .valueError :=
  ⟨rfl, rfl⟩

/-- Claim C2 (code behaviour): `TimeCondition.estimate_next` subtracts in
the wrong order: for a period three hours ahead of the instant 0 it
returns minus three hours, while the spec's formula
`rollForward(now).leftEdge - now` gives plus three hours. -/
theorem estimate_next_sign_flipped :
    estimate_next aheadThreeHours 0 = -10800000000 ∧
    estimateNextSpec aheadThreeHours 0 = 10800000000 := by
  constructor <;> decide

/-- Claim C8: `parse_condition_item` tries the registered rules in order,
returns the result of the first rule that matches, and raises the
parse error when no rule matches. -/
theorem parse_tries_rules_in_order (rules : List Rule) (s : String) :
    parse_condition_item rules s =
      match List.findSome? (fun r => r s) rules with
      | some c => .ok c
      | none => .error .valueError := by
  induction rules with
  | nil => rfl
  | cons r rest ih =>
      simp only [parse_condition_item]
      cases h : r s with
      | some c => simp [List.findSome?, h]
      | none => simp [List.findSome?, h, ih]

/-- Claim C9: De Morgan consistency. Whenever `a` and `b` evaluate to the
booleans `x` and `y`, `Not(All(a, b))` and `Any(Not(a), Not(b))` evaluate
to the same result. -/
theorem de_morgan_consistency (a b : Cond) (x y : Bool)
    (ha : evaluate a = .ok x) (hb : evaluate b = .ok y) :
    evaluate (notInit (allInit [a, b])) = evaluate (anyInit [notInit a, notInit b]) := by
  have hfa := evalAll_allFlatten a x ha
  have hfb := evalAll_allFlatten b y hb
  have hall : evalAll (allFlatten a ++ (allFlatten b ++ [])) = .ok (x && y) := by
    rw [List.append_nil, evalAll_append, hfa]
    cases x with
    | false => rfl
    | true =>
        rw [hfb]
        rfl
  have lhs : evaluate (notInit (allInit [a, b])) = .ok (!(x && y)) := by
    show (do
      let bb ← evalAll (allFlatten a ++ (allFlatten b ++ []))
      Except.ok (!bb)) = _
    rw [hall]
    rfl
  have rhs : evaluate (anyInit [notInit a, notInit b]) = .ok (!x || !y) := by
    show evalAny [Cond.notC a, Cond.notC b] = _
    simp only [evalAny, evaluate, ha, hb]
    cases x <;> cases y <;> rfl
  rw [lhs, rhs]
  cases x <;> cases y <;> rfl

/-- Witness for claim C9 at `AlwaysTrue()` and `AlwaysFalse()`. -/
theorem de_morgan_consistency_witness :
    evaluate alwaysTrueC = .ok true ∧ evaluate alwaysFalseC = .ok false ∧
    evaluate (notInit (allInit [alwaysTrueC, alwaysFalseC])) =
      evaluate (anyInit [notInit alwaysTrueC, notInit alwaysFalseC]) :=
  ⟨rfl, rfl, de_morgan_consistency alwaysTrueC alwaysFalseC true false rfl rfl⟩

/-- Running maximum over the generator items of `All.estimate_timedelta`:
when every item yields the value `est c`, the computed result is a member
of the item values that bounds all of them, i.e. their maximum. -/
theorem allMax_spec (dt : Int) (est : Cond → Int) :
    ∀ subs : List Cond, subs ≠ [] →
      (∀ c ∈ subs,
        (if hasEstimateTimedelta c then estimateTD c dt else Except.ok 1) =
          Except.ok (est c)) →
      ∃ m, allMax subs dt = .ok m ∧ m ∈ subs.map est ∧ ∀ v ∈ subs.map est, v ≤ m := by
  intro subs
  induction subs with
  | nil => intro h; exact absurd rfl h
  | cons c rest ih =>
      intro _ hitems
      cases rest with
      | nil =>
          refine ⟨est c, ?_, ?_, ?_⟩
          · show (if hasEstimateTimedelta c then estimateTD c dt else Except.ok 1) =
              Except.ok (est c)
            exact hitems c (List.mem_cons_self c [])
          · simp
          · simp
      | cons d rest2 =>
          obtain ⟨m', hm', hmem', hbound'⟩ :=
            ih (by simp) (fun x hx => hitems x (List.mem_cons_of_mem c hx))
          refine ⟨max (est c) m', ?_, ?_, ?_⟩
          · show (do
              let v ← (if hasEstimateTimedelta c then estimateTD c dt else Except.ok 1)
              let w ← allMax (d :: rest2) dt
              Except.ok (max v w)) = Except.ok (max (est c) m')
            rw [hitems c (List.mem_cons_self c (d :: rest2)), hm']
            rfl
          · rcases max_choice (est c) m' with h | h <;> rw [h]
            · exact List.mem_cons_self _ _
            · exact List.mem_cons_of_mem _ hmem'
          · intro v hv
            rcases List.mem_cons.mp hv with h | h
            · exact h ▸ le_max_left _ _
            · exact le_trans (hbound' v h) (le_max_right _ _)

/-- Claim C7 (amended): for an `All` with at least one child whose
capability-bearing children's estimates all return a value,
`estimate_timedelta` returns the maximum over the children's estimates,
a child lacking the capability contributing the minimal positive
timedelta resolution (one microsecond, never zero). -/
theorem all_estimate_timedelta_max (subs : List Cond) (dt : Int) (est : Cond → Int)
    (hne : subs ≠ [])
    (hcap : ∀ c ∈ subs, hasEstimateTimedelta c = true → estimateTD c dt = .ok (est c))
    (hnocap : ∀ c ∈ subs, hasEstimateTimedelta c = false → est c = 1) :
    ∃ m, estimateTD (.allC subs) dt = .ok m ∧
      m ∈ subs.map est ∧ ∀ v ∈ subs.map est, v ≤ m := by
  have hitems : ∀ c ∈ subs,
      (if hasEstimateTimedelta c then estimateTD c dt else Except.ok 1) =
        Except.ok (est c) := by
    intro c hc
    cases h : hasEstimateTimedelta c with
    | true => simp [hcap c hc h]
    | false => simp [hnocap c hc h]
  exact allMax_spec dt est subs hne hitems

/-- Counterexample to claim C7 as universally stated: an `All` constructed
with zero conditions raises ValueError (from `max()` over an empty
sequence) instead of returning a maximum. -/
theorem all_estimate_timedelta_empty_counterexample :
    estimateTD (allInit []) 0 = .error .valueError :=
  rfl

/-- Witness for claim C7 (amended) with one capability-lacking child and
one capability-bearing child. -/
theorem all_estimate_timedelta_max_witness :
    ∃ m, estimateTD (.allC [alwaysTrueC, Cond.allC [alwaysFalseC]]) 0 = .ok m ∧
      m ∈ [alwaysTrueC, Cond.allC [alwaysFalseC]].map (fun _ => (1 : Int)) ∧
      ∀ v ∈ [alwaysTrueC, Cond.allC [alwaysFalseC]].map (fun _ => (1 : Int)), v ≤ m := by
  refine all_estimate_timedelta_max _ 0 (fun _ => 1) (by simp) ?_ ?_
  · intro c hc h
    rcases List.mem_cons.mp hc with h1 | h1
    · subst h1
      exact Bool.noConfusion h
    · rcases List.mem_cons.mp h1 with h2 | h2
      · subst h2
        rfl
      · exact absurd h2 (List.not_mem_nil c)
  · intro c hc h
    rfl
